import Mathlib

/-!
Verification development for the hull-closeio connector's reconciliation
pipeline (FilterUtil, MappingUtil, deduplication).  JavaScript records are
modelled as association lists from field names to dynamic values; lodash
field names are treated as atomic keys (lodash path splitting on dots is
not modelled, all relevant keys in the connector are used atomically).
-/

/-- Dynamic JavaScript value, as used by the connector's record shapes.
`undefined` models JavaScript `undefined`, `null` models `null`. -/
inductive JVal where
  | undefined : JVal
  | null : JVal
  | str : String → JVal
  | num : Int → JVal
  | arr : List JVal → JVal
  | obj : List (String × JVal) → JVal

/-- A JavaScript object: ordered association list of fields. -/
abbrev JRecord := List (String × JVal)

namespace JVal

/-- JavaScript truthiness for the values the connector manipulates. -/
def truthy : JVal → Bool
  | .undefined => false
  | .null => false
  | .str s => s ≠ ""
  | .num n => n ≠ 0
  | .arr _ => true
  | .obj _ => true

/-- lodash `_.isNil`: true for `null` and `undefined`. -/
def isNil : JVal → Bool
  | .undefined => true
  | .null => true
  | _ => false

end JVal

namespace JRecord

/-- Plain property access `record[key]`: `undefined` when the key is absent. -/
def get (r : JRecord) (k : String) : JVal :=
  match r.find? (fun p => p.1 = k) with
  | some p => p.2
  | none => .undefined

/-- lodash `_.has(record, key)`: the key is present. -/
def hasKey (r : JRecord) (k : String) : Bool :=
  r.any (fun p => p.1 = k)

/-- lodash `_.get(record, key, default)`: the default replaces a resolved
`undefined` (but not `null`). -/
def getD (r : JRecord) (k : String) (d : JVal) : JVal :=
  match get r k with
  | .undefined => d
  | v => v

/-- Property assignment `record[key] = v`: keeps the position of an existing
key (JavaScript objects preserve insertion order), appends otherwise. -/
def set : JRecord → String → JVal → JRecord
  | [], k, v => [(k, v)]
  | p :: rest, k, v =>
      if p.1 = k then (k, v) :: rest else p :: set rest k v

end JRecord

/-- JavaScript `a || b` on dynamic values: `b` whenever `a` is falsy. -/
def jsOr (a b : JVal) : JVal :=
  if a.truthy then a else b

/-! ## Shared messages

The module `server/lib/shared-messages` is required by `filter-util.js` but
its source is not part of the repository snapshot; only the message
constructor names are visible at the call sites and in the unit tests. -/

/-- Modelled from the spec: the skip reason produced by
`SHARED_MESSAGES.OPERATION_SKIP_NOMATCHACCOUNTSEGMENTS()` ("segment
mismatch" wording per the spec's scenario, exact catalog text missing). -/
def msgSkipNoMatchAccountSegments : String := "segment mismatch"

/-- Modelled from the spec: the skip reason produced by
`SHARED_MESSAGES.OPERATION_SKIP_NOMATCHACCOUNTSEGMENTSUSER()` (user
variant of the segment mismatch message; catalog text missing). -/
def msgSkipNoMatchAccountSegmentsUser : String :=
  "segment mismatch for linked account"

/-- Modelled from the spec: the skip reason produced by
`SHARED_MESSAGES.OPERATION_SKIP_ACCOUNTDOESNTEXISTINCLOSEIO()`
(the constructor name states the account does not exist in close.io;
catalog text missing). -/
def msgSkipAccountDoesntExist : String :=
  "The account does not exist as a lead in close.io"

/-- Modelled from the spec: the skip reason produced by
`SHARED_MESSAGES.OPERATION_SKIP_USERDOESNTEXISTINCLOSEIO()`
(the constructor name states the user does not exist in close.io;
catalog text missing). -/
def msgSkipUserDoesntExist : String :=
  "The user does not exist as a contact in close.io"

/-- Modelled from the spec: the skip reason produced by
`SHARED_MESSAGES.OPERATION_SKIP_NOLINKEDACCOUNT()` ("not linked to an
account" wording per the spec; catalog text missing).  Referenced by the
unit tests but by no branch of the implemented filters. -/
def msgSkipNoLinkedAccount : String := "not linked to an account"

/-! ## FilterUtil -/

/-- A hull segment as it appears in `message.account_segments`. -/
structure HullSegment where
  id : String
deriving DecidableEq, Repr

/-- The part of an update message the filters read:
`_.get(envelope, "message.account_segments", [])`. -/
structure HullMessage where
  account_segments : List HullSegment
deriving DecidableEq, Repr

/-- An account update envelope, with the fields touched by
`FilterUtil.filterAccounts` (built by `buildAccountUpdateEnvelope`). -/
structure AccountUpdateEnvelope where
  message : HullMessage
  hullAccount : JRecord
  cioLeadWrite : JRecord
  skipReason : Option String := none
  opsResult : Option String := none

/-- A user update envelope, with the fields touched by
`FilterUtil.filterUsers` (built by `buildUserUpdateEnvelope`). -/
structure UserUpdateEnvelope where
  message : HullMessage
  hullUser : JRecord
  cioContactWrite : JRecord
  skipReason : Option String := none
  opsResult : Option String := none

/-- The three result buckets of a filter run. -/
structure FilterResults (α : Type) where
  toSkip : List α
  toInsert : List α
  toUpdate : List α

/-- The FilterUtil instance state: `constructor(config)` applies the
defaults `config.synchronizedAccountSegments || []` and
`config.leadIdentifierHull || "domain"` and keeps the cache collaborator
(modelled separately as a lookup function). -/
structure FilterUtil where
  synchronizedAccountSegments : List String
  leadIdentifierHull : String

/-- `new FilterUtil(config)` with nullable configuration entries. -/
def FilterUtil.make (segments : Option (List String))
    (leadIdent : Option String) : FilterUtil :=
  { synchronizedAccountSegments := segments.getD [],
    leadIdentifierHull := leadIdent.getD "domain" }

/-- The identity cache collaborator: `cache.get(key)` resolves to a
previously stored external id or to nothing. -/
abbrev IdentityCache := String → Option String

/-- `this.cache.get(envelope.hullAccount.id)` where the internal id field
may be absent (a `get` on a non-string key resolves to nothing). -/
def cacheGet (cache : IdentityCache) : JVal → Option String
  | .str k => cache k
  | _ => none

/-- `FilterUtil.matchesSynchronizedAccountSegments`: maps the message's
segments to their ids and intersects with the configured allow-list;
true iff the intersection is non-empty. -/
def FilterUtil.matchesSynchronizedAccountSegments (u : FilterUtil)
    (segments : List HullSegment) : Bool :=
  ((segments.map HullSegment.id).inter u.synchronizedAccountSegments).length > 0

/-- Per-envelope classification outcome. -/
inductive FilterOp where
  | skip : FilterOp
  | update : FilterOp
  | insertOp : FilterOp
deriving DecidableEq, Repr

/-- One iteration of the `Promise.each` body of `FilterUtil.filterAccounts`:
segment gate, then explicit (`closeio/id`) or cached lead id → update,
otherwise skip. -/
def filterAccountStep (u : FilterUtil) (cache : IdentityCache)
    (e : AccountUpdateEnvelope) : FilterOp × AccountUpdateEnvelope :=
  if ¬ u.matchesSynchronizedAccountSegments e.message.account_segments then
    (.skip, { e with skipReason := some msgSkipNoMatchAccountSegments,
                     opsResult := some "skip" })
  else
    let cachedCioLeadId := cacheGet cache (e.hullAccount.get "id")
    if e.hullAccount.hasKey "closeio/id" ∨ cachedCioLeadId.isSome then
      let resolvedId :=
        jsOr (e.hullAccount.get "closeio/id")
          (match cachedCioLeadId with
           | some s => .str s
           | none => .undefined)
      (.update, { e with cioLeadWrite := e.cioLeadWrite.set "id" resolvedId })
    else
      (.skip, { e with skipReason := some msgSkipAccountDoesntExist,
                       opsResult := some "skip" })

/-- One iteration of the `Promise.each` body of `FilterUtil.filterUsers`:
segment gate, then explicit (`traits_closeio/id`) or cached contact id →
update, otherwise skip. -/
def filterUserStep (u : FilterUtil) (cache : IdentityCache)
    (e : UserUpdateEnvelope) : FilterOp × UserUpdateEnvelope :=
  if ¬ u.matchesSynchronizedAccountSegments e.message.account_segments then
    (.skip, { e with skipReason := some msgSkipNoMatchAccountSegmentsUser,
                     opsResult := some "skip" })
  else
    let cachedContactCioId := cacheGet cache (e.hullUser.get "id")
    if e.hullUser.hasKey "traits_closeio/id" ∨ cachedContactCioId.isSome then
      let resolvedId :=
        jsOr (e.hullUser.get "traits_closeio/id")
          (match cachedContactCioId with
           | some s => .str s
           | none => .undefined)
      (.update, { e with cioContactWrite := e.cioContactWrite.set "id" resolvedId })
    else
      (.skip, { e with skipReason := some msgSkipUserDoesntExist,
                       opsResult := some "skip" })

/-- Pushes a classified envelope onto the matching result bucket. -/
def FilterResults.push {α : Type} (r : FilterResults α) :
    FilterOp × α → FilterResults α
  | (.skip, e) => { r with toSkip := r.toSkip ++ [e] }
  | (.update, e) => { r with toUpdate := r.toUpdate ++ [e] }
  | (.insertOp, e) => { r with toInsert := r.toInsert ++ [e] }

/-- `FilterUtil.filterAccounts(envelopes)`: sequentially classifies every
envelope into exactly one bucket. -/
def FilterUtil.filterAccounts (u : FilterUtil) (cache : IdentityCache)
    (envelopes : List AccountUpdateEnvelope) :
    FilterResults AccountUpdateEnvelope :=
  envelopes.foldl (fun r e => r.push (filterAccountStep u cache e))
    { toSkip := [], toInsert := [], toUpdate := [] }

/-- `FilterUtil.filterUsers(envelopes)`: sequentially classifies every
envelope into exactly one bucket. -/
def FilterUtil.filterUsers (u : FilterUtil) (cache : IdentityCache)
    (envelopes : List UserUpdateEnvelope) :
    FilterResults UserUpdateEnvelope :=
  envelopes.foldl (fun r e => r.push (filterUserStep u cache e))
    { toSkip := [], toInsert := [], toUpdate := [] }

/-! ## Deduplication

`THullUserUpdateMessage` / `THullAccountUpdateMessage` carry the entity
snapshot (with its `id` and `indexed_at` fields), the segment memberships
and zero or more sub-events (per the hull message shape, both user and
account update messages have an `events` array).  The `indexed_at`
timestamps are modelled as naturals ordered chronologically, the rest of
the snapshot as an opaque payload so distinct messages stay observable. -/

/-- A sub-event of an update message, addressed by its event id. -/
structure HullEvent where
  event_id : String
  payload : String
deriving DecidableEq, Repr

/-- A user update message as read by `deduplicateUserUpdateMessages`:
`user.id`, `user.indexed_at`, the events and the remaining snapshot. -/
structure UserUpdateMessage where
  userId : String
  indexedAt : Nat
  events : List HullEvent
  snapshot : String
deriving DecidableEq, Repr

/-- An account update message as read by `deduplicateAccountUpdateMessages`:
`account.id`, `account.indexed_at`, the events and the remaining snapshot. -/
structure AccountUpdateMessage where
  accountId : String
  indexedAt : Nat
  events : List HullEvent
  snapshot : String
deriving DecidableEq, Repr

/-- The keys of a `_.groupBy` object in insertion (first-occurrence)
order, skipping keys already seen. -/
def groupByKeys (seen : List String) : List String → List String
  | [] => []
  | k :: rest =>
      if k ∈ seen then groupByKeys seen rest
      else k :: groupByKeys (k :: seen) rest

/-- The keys of `_.groupBy`, in first-occurrence order. -/
def firstOccurrences (l : List String) : List String :=
  groupByKeys [] l

/-- Stable insertion into a list sorted ascending by `key` (the element
goes before the first entry with a key not smaller than its own). -/
def insertByKey {α : Type} (key : α → Nat) (x : α) : List α → List α
  | [] => [x]
  | y :: ys => if key x ≤ key y then x :: y :: ys else y :: insertByKey key x ys

/-- `_.sortBy(list, [keyPath])`: stable ascending sort by the key. -/
def sortByKey {α : Type} (key : α → Nat) : List α → List α
  | [] => []
  | x :: xs => insertByKey key x (sortByKey key xs)

/-- `_.set(hashedEvents, e.event_id, e)` on the accumulator object:
replaces the value at an existing key in place, appends otherwise
(event ids are treated as atomic keys). -/
def setEvent : List (String × HullEvent) → String → HullEvent →
    List (String × HullEvent)
  | [], k, e => [(k, e)]
  | p :: rest, k, e =>
      if p.1 = k then (k, e) :: rest else p :: setEvent rest k e

/-- The inner double `forEach` of `deduplicateUserUpdateMessages`: hashes
every event of every grouped message by its event id, later occurrences
overwriting earlier ones. -/
def hashEvents (msgs : List UserUpdateMessage) :
    List (String × HullEvent) :=
  msgs.foldl
    (fun h m => m.events.foldl (fun h2 e => setEvent h2 e.event_id e) h) []

/-- The representative of a group: `_.last(_.sortBy(group, [indexedPath]))`
(`_.last` of an empty list is `undefined`; groups produced by `groupBy`
are never empty, the fallback mirrors that partiality). -/
def lastBySort {α : Type} (key : α → Nat) (fallback : α) (l : List α) : α :=
  ((sortByKey key l).getLast?).getD fallback

/-- `FilterUtil.deduplicateUserUpdateMessages(messages)`: groups by
`user.id`, keeps the most recently indexed message of each group and
replaces its events with the merged hashed events of the group. -/
def deduplicateUserUpdateMessages (messages : List UserUpdateMessage) :
    List UserUpdateMessage :=
  (firstOccurrences (messages.map UserUpdateMessage.userId)).map
    (fun k =>
      let groupedMessages := messages.filter (fun m => m.userId = k)
      let dedupedMessage :=
        lastBySort UserUpdateMessage.indexedAt
          { userId := "", indexedAt := 0, events := [], snapshot := "" }
          groupedMessages
      { dedupedMessage with
          events := (hashEvents groupedMessages).map Prod.snd })

/-- `FilterUtil.deduplicateAccountUpdateMessages(messages)`: groups by
`account.id` and keeps the most recently indexed message of each group
unchanged (no event merging in the account variant). -/
def deduplicateAccountUpdateMessages (messages : List AccountUpdateMessage) :
    List AccountUpdateMessage :=
  (firstOccurrences (messages.map AccountUpdateMessage.accountId)).map
    (fun k =>
      let groupedMessages := messages.filter (fun m => m.accountId = k)
      lastBySort AccountUpdateMessage.indexedAt
        { accountId := "", indexedAt := 0, events := [], snapshot := "" }
        groupedMessages)

/-! ## MappingUtil

Embedded from `src/server/lib/sync-agent/mapping-util.js`.  The lodash
string helper `_.snakeCase` and the WHATWG `URL` parser are external
collaborators and enter the model as function parameters. -/

/-- Field access `_.get(value, key)` on a dynamic value. -/
def JVal.getField : JVal → String → JVal
  | .obj fs, k => JRecord.get fs k
  | _, _ => .undefined

/-- `_.get(value, key, default)` on a dynamic value. -/
def JVal.getFieldD (v : JVal) (k : String) (d : JVal) : JVal :=
  match v.getField k with
  | .undefined => d
  | x => x

/-- A value's role inside a JavaScript template literal.  The connector
only interpolates primitive values (event types, address labels). -/
def templateStr : JVal → String
  | .undefined => "undefined"
  | .null => "null"
  | .str s => s
  | .num n => toString n
  | .arr _ => ""
  | .obj _ => "object Object"

/-- One configured outbound attribute rule; settings may contain empty
rule objects, hence both fields are optional. -/
structure CioOutboundMapping where
  hull_field_name : Option String
  closeio_field_name : Option String
deriving DecidableEq, Repr

/-- `_.keys(rule).length` for an outbound rule object. -/
def CioOutboundMapping.keysCount (m : CioOutboundMapping) : Nat :=
  (if m.hull_field_name.isSome then 1 else 0) +
    (if m.closeio_field_name.isSome then 1 else 0)

/-- The four configured attribute rule lists. -/
structure CioAttributesMapping where
  lead_attributes_outbound : List CioOutboundMapping
  lead_attributes_inbound : List String
  contact_attributes_outbound : List CioOutboundMapping
  contact_attributes_inbound : List String
deriving DecidableEq, Repr

/-- A hull attribute as produced by the inbound mapping: a value plus an
optional write policy (the source's `operation` key). -/
structure HullAttribute where
  value : JVal
  operation : Option String

/-- The inbound mapping result: attribute name → attribute. -/
abbrev HullAttributes := List (String × HullAttribute)

/-- Assignment `hullAttrs[name] = attr` (in-place overwrite or append). -/
def setAttr : HullAttributes → String → HullAttribute → HullAttributes
  | [], k, a => [(k, a)]
  | p :: rest, k, a =>
      if p.1 = k then (k, a) :: rest else p :: setAttr rest k a

/-- The MappingUtil instance state: `constructor(settings)` keeps the
(nullable) attribute mappings and the lead creation status id.
`snakeCase` stands for the external lodash `_.snakeCase` collaborator
used by `getHumanFieldName`. -/
structure MappingUtil where
  attributeMappings : Option CioAttributesMapping
  leadCreationStatusId : String
  snakeCase : String → String

/-- The error raised through `LogicError`: it carries the message, the
failing method and a payload naming the entity type and the offending
record. -/
inductive MapError where
  | noOutboundFields : String → JRecord → MapError
  | unsupportedType : String → JRecord → MapError

/-- `_.get(this.attributeMappings, objType.toLowerCase() +
"_attributes_outbound", [])`: the dynamic key hits the lead or contact
rule list exactly when the lower-cased type name is "lead" or "contact";
the connector calls this with the type names "Lead" and "Contact". -/
def MappingUtil.outboundRules (u : MappingUtil) (objType : String) :
    List CioOutboundMapping :=
  match u.attributeMappings with
  | none => []
  | some am =>
      if objType = "Lead" ∨ objType = "lead" then am.lead_attributes_outbound
      else if objType = "Contact" ∨ objType = "contact" then
        am.contact_attributes_outbound
      else []

/-- `value !== null` for the strict comparison in `mapToServiceObject`. -/
def JVal.isNull : JVal → Bool
  | .null => true
  | _ => false

/-- `_.startsWith(s, p)`: prefix test (structural, over characters). -/
def strStartsWith (s p : String) : Bool :=
  p.data.isPrefixOf s.data

/-- The tail of `_.split(s, ".")` collected so far. -/
def splitDotAux : List Char → List Char → List String
  | [], acc => [String.mk acc.reverse]
  | c :: cs, acc =>
      if c = '.' then String.mk acc.reverse :: splitDotAux cs []
      else splitDotAux cs (c :: acc)

/-- `_.split(s, ".")` (structural, over characters). -/
def splitDot (s : String) : List String :=
  splitDotAux s.data []

/-- `s.slice(0, -1)`: the string without its final character. -/
def strDropLast (s : String) : String :=
  String.mk s.data.dropLast

/-- `_.get(m, "closeio_field_name")` as it behaves downstream: a missing
name stringifies to "undefined" when used as a property key and never
passes the `emails`/`phones`/`urls` test. -/
def ruleSvcAttribName (m : CioOutboundMapping) : String :=
  match m.closeio_field_name with
  | some s => s
  | none => "undefined"

/-- The multi-valued target test of the outbound mapping loop. -/
def isMultiTarget (s : String) : Bool :=
  strStartsWith s "emails" || strStartsWith s "phones" || strStartsWith s "urls"

/-- The service-object key an outbound rule writes: the part of the
compound name before the first dot for multi-valued targets, the name
itself otherwise. -/
def ruleWriteTarget (m : CioOutboundMapping) : String :=
  let svcAttribName := ruleSvcAttribName m
  if isMultiTarget svcAttribName then (splitDot svcAttribName).headD ""
  else svcAttribName

/-- The body of the outbound customized-mapping `forEach`: reads the hull
source field, and either appends a typed entry to a multi-valued
`emails`/`phones`/`urls` list or writes the value to the scalar target. -/
def applyOutboundRule (hullObject : JRecord) (svcObject : JRecord)
    (m : CioOutboundMapping) : JRecord :=
  let hullAttribValue :=
    match m.hull_field_name with
    | some f => hullObject.get f
    | none => .undefined
  if hullAttribValue.isNil then svcObject
  else
    let svcAttribName := ruleSvcAttribName m
    if isMultiTarget svcAttribName then
      let parts := splitDot svcAttribName
      let arrayAttribName := parts.headD ""
      let typeValue := (parts.drop 1).head?
      let base :=
        if ¬ svcObject.hasKey arrayAttribName then
          svcObject.set arrayAttribName (.arr [])
        else svcObject
      let newVal : JVal :=
        .obj (JRecord.set
          [("type", match typeValue with
                    | some t => JVal.str t
                    | none => JVal.undefined)]
          (strDropLast arrayAttribName) hullAttribValue)
      let arrayVal :=
        match base.get arrayAttribName with
        | .arr xs => JVal.arr (xs ++ [newVal])
        | v => JVal.arr [v, newVal]
      base.set arrayAttribName arrayVal
    else
      svcObject.set svcAttribName hullAttribValue

/-- `MappingUtil.mapToServiceObject(objType, hullObject)`: guard against a
missing/empty/single-empty outbound rule configuration, then default
fields per entity type, then the customized outbound rules. -/
def MappingUtil.mapToServiceObject (u : MappingUtil) (objType : String)
    (hullObject : JRecord) : Except MapError JRecord :=
  let rules := u.outboundRules objType
  if u.attributeMappings.isNone ∨ rules.length = 0 ∨
      (rules.length = 1 ∧
        (match rules.head? with
         | some m => m.keysCount
         | none => 0) = 0) then
    .error (.noOutboundFields objType hullObject)
  else if objType = "Lead" then
    let svc1 := (JRecord.set [] "name" (hullObject.get "name")).set "url"
      (hullObject.get "domain")
    let svc2 :=
      if ¬ (hullObject.getD "closeio/id" .null).isNull then
        svc1.set "id" (hullObject.get "closeio/id")
      else if (hullObject.getD "closeio/id" .null).isNull
          ∧ u.leadCreationStatusId ≠ "N/A"
          ∧ u.leadCreationStatusId ≠ "hull-default" then
        svc1.set "status_id" (.str u.leadCreationStatusId)
      else svc1
    .ok (rules.foldl (applyOutboundRule hullObject) svc2)
  else if objType = "Contact" then
    let svc1 := (JRecord.set [] "name" (hullObject.get "name")).set "lead_id"
      (jsOr (hullObject.get "account.closeio/id") .null)
    let svc2 :=
      if hullObject.hasKey "traits_closeio/id" then
        svc1.set "id" (hullObject.get "traits_closeio/id")
      else svc1
    .ok (rules.foldl (applyOutboundRule hullObject) svc2)
  else
    .error (.unsupportedType objType hullObject)

/-- `MappingUtil.getHumanFieldName(field)`: the source consults
`this.customFields`, a property the constructor never assigns, so the
custom-field registry lookup is vacuous (`_.map(undefined)` is empty)
and the result is always the snake-cased raw field name. -/
def MappingUtil.getHumanFieldName (u : MappingUtil) (field : String) :
    String :=
  u.snakeCase field

/-- One step of `MappingUtil.applyMapping`'s reduce: multi-valued
`phones`/`emails`/`urls` fields are flattened per subtype, only the first
address is mapped with its label as prefix, `opportunities` is excluded,
every other present field maps to its human-readable name. -/
def applyMappingStep (u : MappingUtil) (serviceObject : JRecord)
    (hullAttrs : HullAttributes) (m : String) : HullAttributes :=
  if m = "phones" ∨ m = "emails" ∨ m = "urls" then
    let arrayVal :=
      match serviceObject.getD m (.arr []) with
      | .arr xs => xs
      | _ => []
    arrayVal.foldl
      (fun acc v =>
        setAttr acc
          ("closeio/" ++ strDropLast m ++ "_" ++ templateStr (v.getField "type"))
          { value := v.getField (strDropLast m), operation := none })
      hullAttrs
  else if m = "addresses" then
    if serviceObject.hasKey m then
      match serviceObject.getD m (.arr []) with
      | .arr (addressData :: _) =>
          let attribPre :=
            "closeio/address_" ++
              templateStr (addressData.getFieldD "label" (.str "office"))
          let fields :=
            match addressData with
            | .obj fs => fs
            | _ => []
          fields.foldl
            (fun acc p =>
              if p.1 ≠ "label" then
                setAttr acc (attribPre ++ "_" ++ p.1)
                  { value := p.2, operation := none }
              else acc)
            hullAttrs
      | _ => hullAttrs
    else hullAttrs
  else if m ≠ "opportunities" then
    if (serviceObject.get m).isNil then hullAttrs
    else
      setAttr hullAttrs ("closeio/" ++ u.getHumanFieldName m)
        { value := serviceObject.get m, operation := none }
  else hullAttrs

/-- `MappingUtil.applyMapping(mapping, serviceObject)`. -/
def MappingUtil.applyMapping (u : MappingUtil) (mapping : List String)
    (serviceObject : JRecord) : HullAttributes :=
  mapping.foldl (applyMappingStep u serviceObject) []

/-- `MappingUtil.mapLeadToHullAccountAttributes(lead)`: applies the inbound
rules, then always overwrites `closeio/id` from the lead's id, writes the
creation timestamp only-if-unset and the update timestamp always.
(A null mappings object would throw in the source; the model reads the
inbound rule list of the supplied mappings object.) -/
def MappingUtil.mapLeadToHullAccountAttributes (u : MappingUtil)
    (lead : JRecord) : HullAttributes :=
  let mapping :=
    match u.attributeMappings with
    | some am => am.lead_attributes_inbound
    | none => []
  let hObject := u.applyMapping mapping lead
  let h1 :=
    if lead.hasKey "id" then
      setAttr hObject "closeio/id"
        { value := lead.get "id", operation := some "set" }
    else hObject
  let h2 := setAttr h1 "closeio/created_at"
    { value := lead.get "date_created", operation := some "setIfNull" }
  setAttr h2 "closeio/updated_at"
    { value := lead.get "date_updated", operation := some "set" }

/-- The hostname-bearing result of a successful WHATWG URL parse. -/
structure ParsedUrl where
  hostname : String
deriving DecidableEq, Repr

/-- `MappingUtil.normalizeUrl(original)`: the `new URL(original)` call of
the external parser either yields a parsed URL (hostname returned) or
throws (caught; the original string is returned). -/
def normalizeUrl (parseUrl : String → Option ParsedUrl)
    (original : String) : String :=
  match parseUrl original with
  | some closeUrl => closeUrl.hostname
  | none => original

/-! ## Record lemmas -/

theorem JRecord.get_set_self (r : JRecord) (k : String) (v : JVal) :
    (r.set k v).get k = v := by
  induction r with
  | nil => simp [JRecord.set, JRecord.get]
  | cons p rest ih =>
      by_cases h : p.1 = k
      · simp [JRecord.set, h, JRecord.get, List.find?]
      · simpa [JRecord.set, h, JRecord.get, List.find?] using ih

theorem JRecord.get_set_of_ne (r : JRecord) (k k2 : String) (v : JVal)
    (h : k2 ≠ k) : (r.set k v).get k2 = r.get k2 := by
  induction r with
  | nil => simp [JRecord.set, JRecord.get, List.find?, h, Ne.symm h]
  | cons p rest ih =>
      by_cases hp : p.1 = k
      · subst hp
        simp [JRecord.set, JRecord.get, List.find?, h, Ne.symm h]
      · by_cases hp2 : p.1 = k2
        · simp [JRecord.set, hp, JRecord.get, List.find?, hp2, h]
        · simpa [JRecord.set, hp, JRecord.get, List.find?, hp2, h] using ih

theorem JRecord.get_eq_undef_of_hasKey_eq_false (r : JRecord) (k : String)
    (h : r.hasKey k = false) : r.get k = .undefined := by
  induction r with
  | nil => simp [JRecord.get]
  | cons p rest ih =>
      simp only [JRecord.hasKey, List.any_cons, Bool.or_eq_false_iff] at h
      have hp : ¬ p.1 = k := by simpa using h.1
      have := ih (by simpa [JRecord.hasKey] using h.2)
      simpa [JRecord.get, List.find?, hp] using this

theorem JRecord.hasKey_of_get_ne_undef (r : JRecord) (k : String)
    (h : r.get k ≠ .undefined) : r.hasKey k = true := by
  by_contra hc
  exact h (r.get_eq_undef_of_hasKey_eq_false k (by simpa using hc))

/-! ## Filter bucket characterization -/

theorem foldl_push_spec {α : Type} (step : α → FilterOp × α) (es : List α)
    (r : FilterResults α) :
    es.foldl (fun acc e => acc.push (step e)) r =
      { toSkip := r.toSkip ++
          (es.filter (fun e => (step e).1 = .skip)).map (fun e => (step e).2),
        toInsert := r.toInsert ++
          (es.filter (fun e => (step e).1 = .insertOp)).map (fun e => (step e).2),
        toUpdate := r.toUpdate ++
          (es.filter (fun e => (step e).1 = .update)).map (fun e => (step e).2) } := by
  induction es generalizing r with
  | nil => simp
  | cons e rest ih =>
      rw [List.foldl_cons, ih]
      rcases hstep : step e with ⟨op, e2⟩
      cases op <;>
        simp [FilterResults.push, hstep, List.filter_cons]

theorem accountStep_fst_ne_insert (u : FilterUtil) (cache : IdentityCache)
    (e : AccountUpdateEnvelope) :
    (filterAccountStep u cache e).1 ≠ .insertOp := by
  unfold filterAccountStep
  repeat' split <;> simp

theorem userStep_fst_ne_insert (u : FilterUtil) (cache : IdentityCache)
    (e : UserUpdateEnvelope) :
    (filterUserStep u cache e).1 ≠ .insertOp := by
  unfold filterUserStep
  repeat' split <;> simp

/-- C10: for every configuration, cache state and list of envelopes, the
`toInsert` bucket returned by `filterAccounts` and by `filterUsers` is
empty — each envelope is classified update or skip, and no envelope is
ever classified insert by the implemented filters. -/
theorem filters_never_insert (u : FilterUtil) (cache : IdentityCache)
    (accEnvelopes : List AccountUpdateEnvelope)
    (userEnvelopes : List UserUpdateEnvelope) :
    (u.filterAccounts cache accEnvelopes).toInsert = [] ∧
    (u.filterUsers cache userEnvelopes).toInsert = [] := by
  constructor
  · rw [FilterUtil.filterAccounts, foldl_push_spec]
    have : accEnvelopes.filter
        (fun e => (filterAccountStep u cache e).1 = .insertOp) = [] := by
      rw [List.filter_eq_nil_iff]
      intro e _
      simpa using accountStep_fst_ne_insert u cache e
    simp [this]
  · rw [FilterUtil.filterUsers, foldl_push_spec]
    have : userEnvelopes.filter
        (fun e => (filterUserStep u cache e).1 = .insertOp) = [] := by
      rw [List.filter_eq_nil_iff]
      intro e _
      simpa using userStep_fst_ne_insert u cache e
    simp [this]

/-! ## Sample data used by witnesses -/

/-- A cache with no identity links. -/
def emptyCache : IdentityCache := fun _ => none

/-- A cache holding one account link and one user link. -/
def linkedCache : IdentityCache := fun k =>
  if k = "acc-1" then some "lead_cached1"
  else if k = "usr-9" then some "cont_cached9" else none

/-- A FilterUtil allowing exactly the segment "segment-a". -/
def utilSegA : FilterUtil :=
  { synchronizedAccountSegments := ["segment-a"],
    leadIdentifierHull := "external_id" }

/-- An account envelope in the allowed segment with no explicit and no
cached external id. -/
def accEnvNew : AccountUpdateEnvelope :=
  { message := { account_segments := [{ id := "segment-a" }] },
    hullAccount := [("id", JVal.str "acc-9"), ("name", JVal.str "Acme")],
    cioLeadWrite := [("name", JVal.str "Acme")] }

/-- A user envelope in the allowed segment with no explicit and no cached
external id, whose write payload already carries the parent lead id. -/
def userEnvNew : UserUpdateEnvelope :=
  { message := { account_segments := [{ id := "segment-a" }] },
    hullUser := [("id", JVal.str "usr-9"), ("name", JVal.str "Sven")],
    cioContactWrite := [("name", JVal.str "Sven"),
                        ("lead_id", JVal.str "lead_534219tidgshk452t38tajfk")] }

/-- An account envelope in the allowed segment carrying an explicit
external id. -/
def accEnvExplicit : AccountUpdateEnvelope :=
  { message := { account_segments := [{ id := "segment-a" }] },
    hullAccount := [("id", JVal.str "acc-1"),
                    ("closeio/id", JVal.str "lead_explicit1")],
    cioLeadWrite := [("name", JVal.str "Acme")] }

/-- A user envelope in the allowed segment carrying an explicit external
id. -/
def userEnvExplicit : UserUpdateEnvelope :=
  { message := { account_segments := [{ id := "segment-a" }] },
    hullUser := [("id", JVal.str "usr-1"),
                 ("traits_closeio/id", JVal.str "cont_explicit1")],
    cioContactWrite := [("name", JVal.str "Sven")] }

/-- An account envelope outside the allowed segment. -/
def accEnvOff : AccountUpdateEnvelope :=
  { message := { account_segments := [{ id := "segment-b" }] },
    hullAccount := [("id", JVal.str "acc-1"),
                    ("closeio/id", JVal.str "lead_explicit1")],
    cioLeadWrite := [] }

/-- A user envelope outside the allowed segment. -/
def userEnvOff : UserUpdateEnvelope :=
  { message := { account_segments := [{ id := "segment-b" }] },
    hullUser := [("id", JVal.str "usr-1"),
                 ("traits_closeio/id", JVal.str "cont_explicit1")],
    cioContactWrite := [] }

/-! ## Claim theorems: filtering -/

/-- C1 (code evaluation at the failing input): an account envelope in an
allowed segment with no explicit `closeio/id` and no cached id — the
input of the unit test "should identify a lead to insert" — is placed in
`toSkip` with the account-doesnt-exist reason and `toInsert` stays
empty, and likewise for the corresponding user envelope; the spec and
the unit tests require these envelopes to be classified insert. -/
theorem filters_skip_new_entities_instead_of_inserting :
    (utilSegA.filterAccounts emptyCache [accEnvNew]).toInsert = [] ∧
    (utilSegA.filterAccounts emptyCache [accEnvNew]).toSkip.map
      AccountUpdateEnvelope.skipReason = [some msgSkipAccountDoesntExist] ∧
    (utilSegA.filterUsers emptyCache [userEnvNew]).toInsert = [] ∧
    (utilSegA.filterUsers emptyCache [userEnvNew]).toSkip.map
      UserUpdateEnvelope.skipReason = [some msgSkipUserDoesntExist] := by
  exact ⟨rfl, rfl, rfl, rfl⟩

/-- C5: the segment gate matches exactly when the message's segment ids
intersect the configured allow-list, an empty allow-list matches nothing
(fail-closed), and a non-matching envelope is classified skip by
`filterAccounts` / `filterUsers` regardless of any explicit or cached
external id. -/
theorem segment_gate_fail_closed (u : FilterUtil) (cache : IdentityCache)
    (segs : List HullSegment) (e : AccountUpdateEnvelope)
    (eu : UserUpdateEnvelope)
    (hA : u.matchesSynchronizedAccountSegments e.message.account_segments
      = false)
    (hU : u.matchesSynchronizedAccountSegments eu.message.account_segments
      = false) :
    (u.matchesSynchronizedAccountSegments segs = true ↔
      ∃ s ∈ segs, s.id ∈ u.synchronizedAccountSegments) ∧
    (u.synchronizedAccountSegments = [] →
      u.matchesSynchronizedAccountSegments segs = false) ∧
    (filterAccountStep u cache e).1 = .skip ∧
    (filterAccountStep u cache e).2.skipReason
      = some msgSkipNoMatchAccountSegments ∧
    (u.filterAccounts cache [e]).toSkip = [(filterAccountStep u cache e).2] ∧
    (u.filterAccounts cache [e]).toUpdate = [] ∧
    (u.filterAccounts cache [e]).toInsert = [] ∧
    (filterUserStep u cache eu).1 = .skip ∧
    (filterUserStep u cache eu).2.skipReason
      = some msgSkipNoMatchAccountSegmentsUser ∧
    (u.filterUsers cache [eu]).toSkip = [(filterUserStep u cache eu).2] ∧
    (u.filterUsers cache [eu]).toUpdate = [] ∧
    (u.filterUsers cache [eu]).toInsert = [] := by
  have hiff : ∀ ss : List HullSegment,
      (u.matchesSynchronizedAccountSegments ss = true ↔
        ∃ s ∈ ss, s.id ∈ u.synchronizedAccountSegments) := by
    intro ss
    unfold FilterUtil.matchesSynchronizedAccountSegments
    rw [decide_eq_true_iff]
    rw [gt_iff_lt, List.length_pos_iff_exists_mem]
    constructor
    · rintro ⟨a, ha⟩
      have ha2 : a ∈ List.map HullSegment.id ss ∧
          a ∈ u.synchronizedAccountSegments := List.mem_inter_iff.mp ha
      rcases List.mem_map.mp ha2.1 with ⟨s, hs, rfl⟩
      exact ⟨s, hs, ha2.2⟩
    · rintro ⟨s, hs, hmem⟩
      exact ⟨s.id, List.mem_inter_iff.mpr
        ⟨List.mem_map.mpr ⟨s, hs, rfl⟩, hmem⟩⟩
  have hA' : ¬ u.matchesSynchronizedAccountSegments
      e.message.account_segments := by simp [hA]
  have hU' : ¬ u.matchesSynchronizedAccountSegments
      eu.message.account_segments := by simp [hU]
  have hstepA : filterAccountStep u cache e =
      (.skip, { e with skipReason := some msgSkipNoMatchAccountSegments,
                       opsResult := some "skip" }) := by
    rw [filterAccountStep, if_pos hA']
  have hstepU : filterUserStep u cache eu =
      (.skip, { eu with skipReason := some msgSkipNoMatchAccountSegmentsUser,
                        opsResult := some "skip" }) := by
    rw [filterUserStep, if_pos hU']
  refine ⟨hiff segs, ?_, ?_, ?_, ?_, ?_, ?_, ?_, ?_, ?_, ?_, ?_⟩
  · intro hempty
    rw [Bool.eq_false_iff]
    intro htrue
    rcases (hiff segs).mp htrue with ⟨s, _, hmem⟩
    rw [hempty] at hmem
    exact (List.not_mem_nil s.id) hmem
  · rw [hstepA]
  · rw [hstepA]
  · simp [FilterUtil.filterAccounts, hstepA, FilterResults.push]
  · simp [FilterUtil.filterAccounts, hstepA, FilterResults.push]
  · simp [FilterUtil.filterAccounts, hstepA, FilterResults.push]
  · rw [hstepU]
  · rw [hstepU]
  · simp [FilterUtil.filterUsers, hstepU, FilterResults.push]
  · simp [FilterUtil.filterUsers, hstepU, FilterResults.push]
  · simp [FilterUtil.filterUsers, hstepU, FilterResults.push]

/-- C5 witness: the gate theorem applied to a configuration allowing only
"segment-a" and to envelopes whose only segment is "segment-b". -/
theorem segment_gate_fail_closed_witness :
    (utilSegA.matchesSynchronizedAccountSegments [{ id := "segment-a" }] = true ↔
      ∃ s ∈ [({ id := "segment-a" } : HullSegment)],
        s.id ∈ utilSegA.synchronizedAccountSegments) ∧
    (utilSegA.synchronizedAccountSegments = [] →
      utilSegA.matchesSynchronizedAccountSegments [{ id := "segment-a" }]
        = false) ∧
    (filterAccountStep utilSegA emptyCache accEnvOff).1 = .skip ∧
    (filterAccountStep utilSegA emptyCache accEnvOff).2.skipReason
      = some msgSkipNoMatchAccountSegments ∧
    (utilSegA.filterAccounts emptyCache [accEnvOff]).toSkip
      = [(filterAccountStep utilSegA emptyCache accEnvOff).2] ∧
    (utilSegA.filterAccounts emptyCache [accEnvOff]).toUpdate = [] ∧
    (utilSegA.filterAccounts emptyCache [accEnvOff]).toInsert = [] ∧
    (filterUserStep utilSegA emptyCache userEnvOff).1 = .skip ∧
    (filterUserStep utilSegA emptyCache userEnvOff).2.skipReason
      = some msgSkipNoMatchAccountSegmentsUser ∧
    (utilSegA.filterUsers emptyCache [userEnvOff]).toSkip
      = [(filterUserStep utilSegA emptyCache userEnvOff).2] ∧
    (utilSegA.filterUsers emptyCache [userEnvOff]).toUpdate = [] ∧
    (utilSegA.filterUsers emptyCache [userEnvOff]).toInsert = [] :=
  segment_gate_fail_closed utilSegA emptyCache
    [{ id := "segment-a" }] accEnvOff userEnvOff rfl rfl

/-- C4: for an envelope that passes the segment gate, an explicit external
id (`closeio/id` / `traits_closeio/id`) or a cached external id forces
the update classification (never insert), and the resolved id is stamped
onto the outbound write payload's id field — the explicit snapshot id
when one is present (preferred over the cache), the cached id when only
the cache resolves. -/
theorem update_classification_stamps_resolved_id (u : FilterUtil)
    (cache : IdentityCache) (e : AccountUpdateEnvelope)
    (eu : UserUpdateEnvelope)
    (hA : u.matchesSynchronizedAccountSegments e.message.account_segments
      = true)
    (hU : u.matchesSynchronizedAccountSegments eu.message.account_segments
      = true) :
    ((e.hullAccount.hasKey "closeio/id" = true ∨
        (cacheGet cache (e.hullAccount.get "id")).isSome = true) →
      (filterAccountStep u cache e).1 = .update) ∧
    (∀ eid : String, e.hullAccount.get "closeio/id" = .str eid → eid ≠ "" →
      (filterAccountStep u cache e).2.cioLeadWrite.get "id" = .str eid) ∧
    (∀ c : String, e.hullAccount.hasKey "closeio/id" = false →
      cacheGet cache (e.hullAccount.get "id") = some c →
      (filterAccountStep u cache e).2.cioLeadWrite.get "id" = .str c) ∧
    ((eu.hullUser.hasKey "traits_closeio/id" = true ∨
        (cacheGet cache (eu.hullUser.get "id")).isSome = true) →
      (filterUserStep u cache eu).1 = .update) ∧
    (∀ eid : String, eu.hullUser.get "traits_closeio/id" = .str eid →
      eid ≠ "" →
      (filterUserStep u cache eu).2.cioContactWrite.get "id" = .str eid) ∧
    (∀ c : String, eu.hullUser.hasKey "traits_closeio/id" = false →
      cacheGet cache (eu.hullUser.get "id") = some c →
      (filterUserStep u cache eu).2.cioContactWrite.get "id" = .str c) := by
  have hA' : ¬ ¬ u.matchesSynchronizedAccountSegments
      e.message.account_segments := by simp [hA]
  have hU' : ¬ ¬ u.matchesSynchronizedAccountSegments
      eu.message.account_segments := by simp [hU]
  refine ⟨?_, ?_, ?_, ?_, ?_, ?_⟩
  · intro h
    rw [filterAccountStep, if_neg hA']
    simp only []
    rw [if_pos (by simpa using h)]
  · intro eid hget hne
    have hkey : e.hullAccount.hasKey "closeio/id" = true :=
      e.hullAccount.hasKey_of_get_ne_undef "closeio/id" (by rw [hget]; intro hc; cases hc)
    rw [filterAccountStep, if_neg hA']
    simp only []
    rw [if_pos (by exact Or.inl (by simpa using hkey))]
    simp only [hget]
    have htr : (JVal.str eid).truthy = true := by simpa [JVal.truthy] using hne
    simp [jsOr, htr, JRecord.get_set_self]
  · intro c hkey hcache
    rw [filterAccountStep, if_neg hA']
    simp only []
    rw [if_pos (by exact Or.inr (by simp [hcache]))]
    have hget : e.hullAccount.get "closeio/id" = .undefined :=
      e.hullAccount.get_eq_undef_of_hasKey_eq_false "closeio/id" hkey
    simp [hget, hcache, jsOr, JVal.truthy, JRecord.get_set_self]
  · intro h
    rw [filterUserStep, if_neg hU']
    simp only []
    rw [if_pos (by simpa using h)]
  · intro eid hget hne
    have hkey : eu.hullUser.hasKey "traits_closeio/id" = true :=
      eu.hullUser.hasKey_of_get_ne_undef "traits_closeio/id"
        (by rw [hget]; intro hc; cases hc)
    rw [filterUserStep, if_neg hU']
    simp only []
    rw [if_pos (by exact Or.inl (by simpa using hkey))]
    simp only [hget]
    have htr : (JVal.str eid).truthy = true := by simpa [JVal.truthy] using hne
    simp [jsOr, htr, JRecord.get_set_self]
  · intro c hkey hcache
    rw [filterUserStep, if_neg hU']
    simp only []
    rw [if_pos (by exact Or.inr (by simp [hcache]))]
    have hget : eu.hullUser.get "traits_closeio/id" = .undefined :=
      eu.hullUser.get_eq_undef_of_hasKey_eq_false "traits_closeio/id" hkey
    simp [hget, hcache, jsOr, JVal.truthy, JRecord.get_set_self]

/-- C4 witness: an explicit-id account envelope gets its snapshot id
stamped (preferred over the cache), and a user envelope without an
explicit id gets the cached contact id stamped; both classify update. -/
theorem update_classification_stamps_resolved_id_witness :
    (filterAccountStep utilSegA linkedCache accEnvExplicit).1 = .update ∧
    (filterAccountStep utilSegA linkedCache
      accEnvExplicit).2.cioLeadWrite.get "id" = .str "lead_explicit1" ∧
    (filterUserStep utilSegA linkedCache userEnvNew).1 = .update ∧
    (filterUserStep utilSegA linkedCache
      userEnvNew).2.cioContactWrite.get "id" = .str "cont_cached9" := by
  have h := update_classification_stamps_resolved_id utilSegA linkedCache
    accEnvExplicit userEnvNew rfl rfl
  exact ⟨h.1 (Or.inl rfl), h.2.1 "lead_explicit1" rfl (by decide),
    h.2.2.2.1 (Or.inr rfl), h.2.2.2.2.2 "cont_cached9" rfl rfl⟩

theorem length_filter_filterOp {α : Type} (f : α → FilterOp) (l : List α) :
    (l.filter (fun a => f a = .skip)).length +
      (l.filter (fun a => f a = .update)).length +
      (l.filter (fun a => f a = .insertOp)).length = l.length := by
  induction l with
  | nil => rfl
  | cons a rest ih =>
      cases hfa : f a <;> simp [List.filter_cons, hfa] <;> omega

theorem accountStep_cases (u : FilterUtil) (cache : IdentityCache)
    (e : AccountUpdateEnvelope) :
    filterAccountStep u cache e =
      (.skip, { e with skipReason := some msgSkipNoMatchAccountSegments,
                       opsResult := some "skip" }) ∨
    (∃ v, filterAccountStep u cache e =
      (.update, { e with cioLeadWrite := e.cioLeadWrite.set "id" v })) ∨
    filterAccountStep u cache e =
      (.skip, { e with skipReason := some msgSkipAccountDoesntExist,
                       opsResult := some "skip" }) := by
  by_cases h1 : ¬ u.matchesSynchronizedAccountSegments
      e.message.account_segments
  · exact Or.inl (by rw [filterAccountStep, if_pos h1])
  · by_cases h2 : e.hullAccount.hasKey "closeio/id" ∨
        (cacheGet cache (e.hullAccount.get "id")).isSome
    · refine Or.inr (Or.inl
        ⟨jsOr (e.hullAccount.get "closeio/id")
          (match cacheGet cache (e.hullAccount.get "id") with
           | some s => .str s
           | none => .undefined), ?_⟩)
      rw [filterAccountStep, if_neg h1]
      simp only [if_pos h2]
    · refine Or.inr (Or.inr ?_)
      rw [filterAccountStep, if_neg h1]
      simp only [if_neg h2]

theorem userStep_cases (u : FilterUtil) (cache : IdentityCache)
    (e : UserUpdateEnvelope) :
    filterUserStep u cache e =
      (.skip, { e with skipReason := some msgSkipNoMatchAccountSegmentsUser,
                       opsResult := some "skip" }) ∨
    (∃ v, filterUserStep u cache e =
      (.update, { e with cioContactWrite := e.cioContactWrite.set "id" v })) ∨
    filterUserStep u cache e =
      (.skip, { e with skipReason := some msgSkipUserDoesntExist,
                       opsResult := some "skip" }) := by
  by_cases h1 : ¬ u.matchesSynchronizedAccountSegments
      e.message.account_segments
  · exact Or.inl (by rw [filterUserStep, if_pos h1])
  · by_cases h2 : e.hullUser.hasKey "traits_closeio/id" ∨
        (cacheGet cache (e.hullUser.get "id")).isSome
    · refine Or.inr (Or.inl
        ⟨jsOr (e.hullUser.get "traits_closeio/id")
          (match cacheGet cache (e.hullUser.get "id") with
           | some s => .str s
           | none => .undefined), ?_⟩)
      rw [filterUserStep, if_neg h1]
      simp only [if_pos h2]
    · refine Or.inr (Or.inr ?_)
      rw [filterUserStep, if_neg h1]
      simp only [if_neg h2]

/-- An account envelope classified update whose incoming skip reason is
already set (no pipeline stage resets it). -/
def accEnvStale : AccountUpdateEnvelope :=
  { accEnvExplicit with skipReason := some "stale-reason" }

/-- C2 counterexample: for an input envelope whose `skipReason` is already
non-null, `filterAccounts` classifies it update and returns it in
`toUpdate` still carrying that non-null `skipReason` — so over all
envelope lists it is not true that `toUpdate` envelopes have a null
`skipReason`. -/
theorem toUpdate_envelope_with_nonnull_skipReason :
    (utilSegA.filterAccounts emptyCache [accEnvStale]).toUpdate.map
      AccountUpdateEnvelope.skipReason = [some "stale-reason"] ∧
    ¬ (∀ e2 ∈ (utilSegA.filterAccounts emptyCache [accEnvStale]).toUpdate,
        e2.skipReason = none) := by
  refine ⟨rfl, fun hall => ?_⟩
  have hmem : some "stale-reason" ∈
      (utilSegA.filterAccounts emptyCache [accEnvStale]).toUpdate.map
        AccountUpdateEnvelope.skipReason := by
    rw [show (utilSegA.filterAccounts emptyCache [accEnvStale]).toUpdate.map
        AccountUpdateEnvelope.skipReason = [some "stale-reason"] from rfl]
    exact List.mem_singleton_self _
  rcases List.mem_map.mp hmem with ⟨e2, he2, heq⟩
  rw [hall e2 he2] at heq
  cases heq

/-- C2 (amended): for every configuration, cache and lists of envelopes
whose incoming `skipReason` is null (as `buildUserUpdateEnvelope` /
`buildAccountUpdateEnvelope` construct them), filtering partitions the
input — each envelope lands, transformed by its classification step, in
exactly one of the three buckets, the bucket lengths sum to the input
length — every `toSkip` envelope carries a non-empty skip reason, and
every `toUpdate` / `toInsert` envelope has a null `skipReason`. -/
theorem filter_partitions_and_stamps_skip_reasons (u : FilterUtil)
    (cache : IdentityCache) (es : List AccountUpdateEnvelope)
    (us : List UserUpdateEnvelope)
    (hes : ∀ e ∈ es, e.skipReason = none)
    (hus : ∀ e ∈ us, e.skipReason = none) :
    ((u.filterAccounts cache es).toSkip.length +
        (u.filterAccounts cache es).toUpdate.length +
        (u.filterAccounts cache es).toInsert.length = es.length) ∧
    ((u.filterAccounts cache es).toSkip =
      (es.filter (fun e => (filterAccountStep u cache e).1 = .skip)).map
        (fun e => (filterAccountStep u cache e).2)) ∧
    ((u.filterAccounts cache es).toUpdate =
      (es.filter (fun e => (filterAccountStep u cache e).1 = .update)).map
        (fun e => (filterAccountStep u cache e).2)) ∧
    ((u.filterAccounts cache es).toInsert =
      (es.filter (fun e => (filterAccountStep u cache e).1 = .insertOp)).map
        (fun e => (filterAccountStep u cache e).2)) ∧
    (∀ e2 ∈ (u.filterAccounts cache es).toSkip,
      ∃ s, e2.skipReason = some s ∧ s ≠ "") ∧
    (∀ e2 ∈ (u.filterAccounts cache es).toUpdate, e2.skipReason = none) ∧
    (∀ e2 ∈ (u.filterAccounts cache es).toInsert, e2.skipReason = none) ∧
    ((u.filterUsers cache us).toSkip.length +
        (u.filterUsers cache us).toUpdate.length +
        (u.filterUsers cache us).toInsert.length = us.length) ∧
    ((u.filterUsers cache us).toSkip =
      (us.filter (fun e => (filterUserStep u cache e).1 = .skip)).map
        (fun e => (filterUserStep u cache e).2)) ∧
    ((u.filterUsers cache us).toUpdate =
      (us.filter (fun e => (filterUserStep u cache e).1 = .update)).map
        (fun e => (filterUserStep u cache e).2)) ∧
    ((u.filterUsers cache us).toInsert =
      (us.filter (fun e => (filterUserStep u cache e).1 = .insertOp)).map
        (fun e => (filterUserStep u cache e).2)) ∧
    (∀ e2 ∈ (u.filterUsers cache us).toSkip,
      ∃ s, e2.skipReason = some s ∧ s ≠ "") ∧
    (∀ e2 ∈ (u.filterUsers cache us).toUpdate, e2.skipReason = none) ∧
    (∀ e2 ∈ (u.filterUsers cache us).toInsert, e2.skipReason = none) := by
  have hacc : u.filterAccounts cache es =
      { toSkip := (es.filter
            (fun e => (filterAccountStep u cache e).1 = .skip)).map
          (fun e => (filterAccountStep u cache e).2),
        toInsert := (es.filter
            (fun e => (filterAccountStep u cache e).1 = .insertOp)).map
          (fun e => (filterAccountStep u cache e).2),
        toUpdate := (es.filter
            (fun e => (filterAccountStep u cache e).1 = .update)).map
          (fun e => (filterAccountStep u cache e).2) } := by
    rw [FilterUtil.filterAccounts, foldl_push_spec]
    simp
  have husr : u.filterUsers cache us =
      { toSkip := (us.filter
            (fun e => (filterUserStep u cache e).1 = .skip)).map
          (fun e => (filterUserStep u cache e).2),
        toInsert := (us.filter
            (fun e => (filterUserStep u cache e).1 = .insertOp)).map
          (fun e => (filterUserStep u cache e).2),
        toUpdate := (us.filter
            (fun e => (filterUserStep u cache e).1 = .update)).map
          (fun e => (filterUserStep u cache e).2) } := by
    rw [FilterUtil.filterUsers, foldl_push_spec]
    simp
  refine ⟨?_, ?_, ?_, ?_, ?_, ?_, ?_, ?_, ?_, ?_, ?_, ?_, ?_, ?_⟩
  · rw [hacc]
    simpa using length_filter_filterOp (fun e => (filterAccountStep u cache e).1) es
  · rw [hacc]
  · rw [hacc]
  · rw [hacc]
  · rw [hacc]
    intro e2 he2
    rcases List.mem_map.mp he2 with ⟨e, he, rfl⟩
    have hskip : (filterAccountStep u cache e).1 = .skip :=
      by simpa using (List.mem_filter.mp he).2
    rcases accountStep_cases u cache e with hc | ⟨v, hc⟩ | hc
    · exact ⟨msgSkipNoMatchAccountSegments, by rw [hc], by decide⟩
    · rw [hc] at hskip
      cases hskip
    · exact ⟨msgSkipAccountDoesntExist, by rw [hc], by decide⟩
  · rw [hacc]
    intro e2 he2
    rcases List.mem_map.mp he2 with ⟨e, he, rfl⟩
    have hupd : (filterAccountStep u cache e).1 = .update :=
      by simpa using (List.mem_filter.mp he).2
    rcases accountStep_cases u cache e with hc | ⟨v, hc⟩ | hc
    · rw [hc] at hupd
      cases hupd
    · rw [hc]
      exact hes e (List.mem_filter.mp he).1
    · rw [hc] at hupd
      cases hupd
  · rw [hacc]
    intro e2 he2
    rcases List.mem_map.mp he2 with ⟨e, he, rfl⟩
    have hins : (filterAccountStep u cache e).1 = .insertOp :=
      by simpa using (List.mem_filter.mp he).2
    exact absurd hins (accountStep_fst_ne_insert u cache e)
  · rw [husr]
    simpa using length_filter_filterOp (fun e => (filterUserStep u cache e).1) us
  · rw [husr]
  · rw [husr]
  · rw [husr]
  · rw [husr]
    intro e2 he2
    rcases List.mem_map.mp he2 with ⟨e, he, rfl⟩
    have hskip : (filterUserStep u cache e).1 = .skip :=
      by simpa using (List.mem_filter.mp he).2
    rcases userStep_cases u cache e with hc | ⟨v, hc⟩ | hc
    · exact ⟨msgSkipNoMatchAccountSegmentsUser, by rw [hc], by decide⟩
    · rw [hc] at hskip
      cases hskip
    · exact ⟨msgSkipUserDoesntExist, by rw [hc], by decide⟩
  · rw [husr]
    intro e2 he2
    rcases List.mem_map.mp he2 with ⟨e, he, rfl⟩
    have hupd : (filterUserStep u cache e).1 = .update :=
      by simpa using (List.mem_filter.mp he).2
    rcases userStep_cases u cache e with hc | ⟨v, hc⟩ | hc
    · rw [hc] at hupd
      cases hupd
    · rw [hc]
      exact hus e (List.mem_filter.mp he).1
    · rw [hc] at hupd
      cases hupd
  · rw [husr]
    intro e2 he2
    rcases List.mem_map.mp he2 with ⟨e, he, rfl⟩
    have hins : (filterUserStep u cache e).1 = .insertOp :=
      by simpa using (List.mem_filter.mp he).2
    exact absurd hins (userStep_fst_ne_insert u cache e)

/-- C2 witness: the amended partition theorem applied to a two-envelope
account batch (one update, one skip) and a one-envelope user batch. -/
theorem filter_partitions_and_stamps_skip_reasons_witness :
    ((utilSegA.filterAccounts emptyCache
        [accEnvExplicit, accEnvOff]).toSkip.length +
      (utilSegA.filterAccounts emptyCache
        [accEnvExplicit, accEnvOff]).toUpdate.length +
      (utilSegA.filterAccounts emptyCache
        [accEnvExplicit, accEnvOff]).toInsert.length = 2) ∧
    (∀ e2 ∈ (utilSegA.filterAccounts emptyCache
        [accEnvExplicit, accEnvOff]).toSkip,
      ∃ s, e2.skipReason = some s ∧ s ≠ "") ∧
    (∀ e2 ∈ (utilSegA.filterUsers emptyCache [userEnvExplicit]).toUpdate,
      e2.skipReason = none) := by
  have h := filter_partitions_and_stamps_skip_reasons utilSegA emptyCache
    [accEnvExplicit, accEnvOff] [userEnvExplicit] (by decide) (by decide)
  exact ⟨h.1, h.2.2.2.2.1, h.2.2.2.2.2.2.2.2.2.2.2.2.1⟩

/-- A user envelope in the allowed segment with no explicit id, no cached
id, and no resolved parent lead id on its write payload. -/
def userEnvUnlinked : UserUpdateEnvelope :=
  { message := { account_segments := [{ id := "segment-a" }] },
    hullUser := [("id", JVal.str "usr-9"), ("name", JVal.str "Sven")],
    cioContactWrite := [("name", JVal.str "Sven")] }

/-- C6 (code evaluation at the failing input): a user envelope passing the
segment gate with no explicit, cached or parent external id — the input
of the unit test "should identify a contact to skip if not linked to a
lead" — is skipped, but with the generic user-doesnt-exist reason; the
implemented filter never consults the linked account and never produces
the "not linked to an account" reason the test and the spec require. -/
theorem filterUsers_unlinked_contact_skip_reason :
    (utilSegA.filterUsers emptyCache [userEnvUnlinked]).toSkip.map
      UserUpdateEnvelope.skipReason = [some msgSkipUserDoesntExist] ∧
    (utilSegA.filterUsers emptyCache [userEnvUnlinked]).toInsert = [] ∧
    (utilSegA.filterUsers emptyCache [userEnvUnlinked]).toUpdate = [] ∧
    msgSkipUserDoesntExist ≠ msgSkipNoLinkedAccount := by
  exact ⟨rfl, rfl, rfl, by decide⟩

/-! ## Claim theorems: mapping -/

/-- C8: `normalizeUrl` is total — it never raises, returns the parsed
hostname when the URL parser succeeds on the input, and returns the
original string unchanged when the parser fails (the thrown parse error
is caught). -/
theorem normalizeUrl_hostname_or_original
    (parseUrl : String → Option ParsedUrl) (original : String) :
    (∀ pu, parseUrl original = some pu →
      normalizeUrl parseUrl original = pu.hostname) ∧
    (parseUrl original = none → normalizeUrl parseUrl original = original) := by
  constructor
  · intro pu h
    rw [normalizeUrl, h]
  · intro h
    rw [normalizeUrl, h]

/-- A sample URL parser recognising one well-formed URL. -/
def sampleParseUrl : String → Option ParsedUrl := fun s =>
  if s = "https://app.close.io/api" then some { hostname := "app.close.io" }
  else none

/-- C8 witness: the hostname is returned for the well-formed sample URL
and a non-URL string comes back unchanged. -/
theorem normalizeUrl_hostname_or_original_witness :
    normalizeUrl sampleParseUrl "https://app.close.io/api" = "app.close.io" ∧
    normalizeUrl sampleParseUrl "not a url" = "not a url" :=
  ⟨(normalizeUrl_hostname_or_original sampleParseUrl
      "https://app.close.io/api").1 { hostname := "app.close.io" } rfl,
   (normalizeUrl_hostname_or_original sampleParseUrl "not a url").2 rfl⟩

/-- C7: when no usable outbound rules are configured for the requested
entity type — the mappings object is null, the rule list is empty, or it
contains only an empty rule object — `mapToServiceObject` fails with the
no-outbound-fields mapping error naming the entity type and carrying the
offending record, instead of returning a default-fields payload. -/
theorem mapToServiceObject_errors_without_usable_rules (u : MappingUtil)
    (objType : String) (hullObject : JRecord)
    (h : u.attributeMappings = none ∨ u.outboundRules objType = [] ∨
      ∃ m, u.outboundRules objType = [m] ∧ m.keysCount = 0) :
    u.mapToServiceObject objType hullObject =
      Except.error (.noOutboundFields objType hullObject) := by
  have hcond : u.attributeMappings.isNone = true ∨
      (u.outboundRules objType).length = 0 ∨
      ((u.outboundRules objType).length = 1 ∧
        (match (u.outboundRules objType).head? with
         | some m => m.keysCount
         | none => 0) = 0) := by
    rcases h with h | h | ⟨m, hm, hk⟩
    · exact Or.inl (by rw [h]; rfl)
    · exact Or.inr (Or.inl (by rw [h]; rfl))
    · exact Or.inr (Or.inr (by rw [hm]; exact ⟨rfl, by simpa using hk⟩))
  rw [MappingUtil.mapToServiceObject]
  simp only [if_pos hcond]

/-- A MappingUtil configured with no attribute mappings object at all. -/
def mappingUtilNoRules : MappingUtil :=
  { attributeMappings := none,
    leadCreationStatusId := "N/A",
    snakeCase := fun s => s }

/-- C7 witness: the error is produced for a Lead record when the mappings
object is null. -/
theorem mapToServiceObject_errors_without_usable_rules_witness :
    mappingUtilNoRules.mapToServiceObject "Lead"
      [("name", JVal.str "Acme")] =
      Except.error (.noOutboundFields "Lead" [("name", JVal.str "Acme")]) :=
  mapToServiceObject_errors_without_usable_rules mappingUtilNoRules "Lead"
    [("name", JVal.str "Acme")] (Or.inl rfl)

/-! ## Deduplication lemmas -/

theorem mem_insertByKey {α : Type} (key : α → Nat) (x a : α) (l : List α) :
    a ∈ insertByKey key x l ↔ a = x ∨ a ∈ l := by
  induction l with
  | nil => simp [insertByKey]
  | cons y ys ih =>
      by_cases h : key x ≤ key y
      · simp [insertByKey, h]
      · simp [insertByKey, h, ih]
        tauto

theorem pairwise_insertByKey {α : Type} (key : α → Nat) (x : α)
    (l : List α) (h : l.Pairwise (fun a b => key a ≤ key b)) :
    (insertByKey key x l).Pairwise (fun a b => key a ≤ key b) := by
  induction l with
  | nil => simp [insertByKey]
  | cons y ys ih =>
      rcases List.pairwise_cons.mp h with ⟨hy, hys⟩
      by_cases hle : key x ≤ key y
      · rw [insertByKey, if_pos hle]
        refine List.pairwise_cons.mpr ⟨?_, h⟩
        intro b hb
        rcases List.mem_cons.mp hb with rfl | hb
        · exact hle
        · exact le_trans hle (hy b hb)
      · rw [insertByKey, if_neg hle]
        refine List.pairwise_cons.mpr ⟨?_, ih hys⟩
        intro b hb
        rcases (mem_insertByKey key x b ys).mp hb with rfl | hb
        · exact Nat.le_of_lt (Nat.lt_of_not_le hle)
        · exact hy b hb

theorem mem_sortByKey {α : Type} (key : α → Nat) (a : α) (l : List α) :
    a ∈ sortByKey key l ↔ a ∈ l := by
  induction l with
  | nil => simp [sortByKey]
  | cons x xs ih => simp [sortByKey, mem_insertByKey, ih]

theorem pairwise_sortByKey {α : Type} (key : α → Nat) (l : List α) :
    (sortByKey key l).Pairwise (fun a b => key a ≤ key b) := by
  induction l with
  | nil => simp [sortByKey]
  | cons x xs ih => exact pairwise_insertByKey key x _ ih

theorem getLastD_mem {α : Type} (l : List α) (d : α) (h : l ≠ []) :
    l.getLast?.getD d ∈ l := by
  induction l with
  | nil => cases h rfl
  | cons x xs ih =>
      cases xs with
      | nil => simp [List.getLast?]
      | cons y ys =>
          rw [List.getLast?_cons_cons]
          exact List.mem_cons_of_mem x (ih (by simp))

theorem key_le_getLastD {α : Type} (key : α → Nat) (d : α) (l : List α)
    (hp : l.Pairwise (fun a b => key a ≤ key b)) :
    ∀ a ∈ l, key a ≤ key (l.getLast?.getD d) := by
  induction l with
  | nil => intro a ha; cases ha
  | cons x xs ih =>
      rcases List.pairwise_cons.mp hp with ⟨hx, hxs⟩
      intro a ha
      rcases List.mem_cons.mp ha with rfl | ha
      · cases xs with
        | nil => simp [List.getLast?]
        | cons y ys =>
            rw [List.getLast?_cons_cons]
            exact hx _ (getLastD_mem (y :: ys) d (by simp))
      · cases xs with
        | nil => cases ha
        | cons y ys =>
            rw [List.getLast?_cons_cons]
            exact ih hxs a ha

theorem lastBySort_mem {α : Type} (key : α → Nat) (d : α) (l : List α)
    (h : l ≠ []) : lastBySort key d l ∈ l := by
  rw [lastBySort]
  have hs : sortByKey key l ≠ [] := by
    intro hnil
    rcases List.exists_mem_of_ne_nil l h with ⟨a, ha⟩
    have hma := (mem_sortByKey key a l).mpr ha
    rw [hnil] at hma
    cases hma
  exact (mem_sortByKey key _ l).mp (getLastD_mem _ d hs)

theorem lastBySort_max {α : Type} (key : α → Nat) (d : α) (l : List α) :
    ∀ a ∈ l, key a ≤ key (lastBySort key d l) := by
  intro a ha
  rw [lastBySort]
  exact key_le_getLastD key d _ (pairwise_sortByKey key l) a
    ((mem_sortByKey key a l).mpr ha)

theorem mem_groupByKeys (a : String) :
    ∀ (l seen : List String),
      (a ∈ groupByKeys seen l ↔ a ∈ l ∧ a ∉ seen) := by
  intro l
  induction l with
  | nil => intro seen; simp [groupByKeys]
  | cons k rest ih =>
      intro seen
      by_cases hk : k ∈ seen
      · rw [groupByKeys, if_pos hk, ih seen]
        constructor
        · rintro ⟨ha, hs⟩
          exact ⟨List.mem_cons_of_mem k ha, hs⟩
        · rintro ⟨ha, hs⟩
          rcases List.mem_cons.mp ha with rfl | ha
          · exact absurd hk hs
          · exact ⟨ha, hs⟩
      · rw [groupByKeys, if_neg hk]
        by_cases hak : a = k
        · subst hak
          simp [hk]
        · rw [List.mem_cons]
          rw [ih (k :: seen)]
          simp [hak, List.mem_cons]

theorem nodup_groupByKeys : ∀ (l seen : List String),
    (groupByKeys seen l).Nodup := by
  intro l
  induction l with
  | nil => intro seen; simp [groupByKeys]
  | cons k rest ih =>
      intro seen
      by_cases hk : k ∈ seen
      · rw [groupByKeys, if_pos hk]
        exact ih seen
      · rw [groupByKeys, if_neg hk]
        refine List.nodup_cons.mpr ⟨?_, ih (k :: seen)⟩
        intro hkmem
        exact ((mem_groupByKeys k rest (k :: seen)).mp hkmem).2
          (List.mem_cons_self k seen)

theorem mem_firstOccurrences (a : String) (l : List String) :
    a ∈ firstOccurrences l ↔ a ∈ l := by
  rw [firstOccurrences, mem_groupByKeys]
  simp

/-- The event-id hash as a fold over a flat event stream. -/
def eventStreamFold (h : List (String × HullEvent)) (es : List HullEvent) :
    List (String × HullEvent) :=
  es.foldl (fun h2 e => setEvent h2 e.event_id e) h

/-- `lookupEvent h k` reads the hashed event stored at key `k`. -/
def lookupEvent (h : List (String × HullEvent)) (k : String) :
    Option HullEvent :=
  (h.find? (fun p => p.1 = k)).map Prod.snd

theorem hashEvents_eq_streamFold_general :
    ∀ (msgs : List UserUpdateMessage) (h : List (String × HullEvent)),
      msgs.foldl
        (fun h2 m => m.events.foldl (fun h3 e => setEvent h3 e.event_id e) h2)
        h = eventStreamFold h (msgs.flatMap UserUpdateMessage.events) := by
  intro msgs
  induction msgs with
  | nil => intro h; simp [eventStreamFold]
  | cons m rest ih =>
      intro h
      rw [List.foldl_cons, ih, List.flatMap_cons]
      simp only [eventStreamFold]
      rw [List.foldl_append]

theorem hashEvents_eq_streamFold (msgs : List UserUpdateMessage) :
    hashEvents msgs =
      eventStreamFold [] (msgs.flatMap UserUpdateMessage.events) := by
  rw [hashEvents, hashEvents_eq_streamFold_general]

theorem mem_keys_setEvent (a k : String) (e : HullEvent) :
    ∀ (h : List (String × HullEvent)),
      (a ∈ (setEvent h k e).map Prod.fst ↔ a ∈ h.map Prod.fst ∨ a = k) := by
  intro h
  induction h with
  | nil =>
      rw [setEvent]
      simp only [List.map_cons, List.map_nil, List.mem_cons,
        List.not_mem_nil]
      tauto
  | cons p rest ih =>
      by_cases hp : p.1 = k
      · rw [setEvent, if_pos hp]
        simp only [List.map_cons, List.mem_cons]
        rw [hp]
        tauto
      · rw [setEvent, if_neg hp]
        simp only [List.map_cons, List.mem_cons]
        rw [ih]
        tauto

theorem setEvent_id_invariant (k : String) (e : HullEvent)
    (hek : e.event_id = k) :
    ∀ (h : List (String × HullEvent)),
      (∀ p ∈ h, p.2.event_id = p.1) →
      ∀ p ∈ setEvent h k e, p.2.event_id = p.1 := by
  intro h
  induction h with
  | nil =>
      intro _ p hp
      rw [setEvent] at hp
      rcases List.mem_singleton.mp hp with rfl
      exact hek
  | cons q rest ih =>
      intro hinv p hp
      by_cases hq : q.1 = k
      · rw [setEvent, if_pos hq] at hp
        rcases List.mem_cons.mp hp with rfl | hp2
        · exact hek
        · exact hinv p (List.mem_cons_of_mem q hp2)
      · rw [setEvent, if_neg hq] at hp
        rcases List.mem_cons.mp hp with rfl | hp2
        · exact hinv p (List.mem_cons_self p rest)
        · exact ih (fun p2 hmem => hinv p2 (List.mem_cons_of_mem q hmem))
            p hp2

theorem lookupEvent_setEvent_self (k : String) (e : HullEvent) :
    ∀ (h : List (String × HullEvent)),
      lookupEvent (setEvent h k e) k = some e := by
  intro h
  induction h with
  | nil => simp [setEvent, lookupEvent, List.find?]
  | cons p rest ih =>
      by_cases hp : p.1 = k
      · simp [setEvent, hp, lookupEvent, List.find?]
      · simpa [setEvent, hp, lookupEvent, List.find?] using ih

theorem lookupEvent_setEvent_ne (k k2 : String) (e : HullEvent)
    (hne : k2 ≠ k) :
    ∀ (h : List (String × HullEvent)),
      lookupEvent (setEvent h k e) k2 = lookupEvent h k2 := by
  intro h
  induction h with
  | nil => simp [setEvent, lookupEvent, List.find?, Ne.symm hne]
  | cons p rest ih =>
      by_cases hp : p.1 = k
      · subst hp
        simp [setEvent, lookupEvent, List.find?, Ne.symm hne]
      · by_cases hp2 : p.1 = k2
        · simp [setEvent, hp, lookupEvent, List.find?, hp2, hne]
        · simpa [setEvent, hp, lookupEvent, List.find?, hp2] using ih

theorem mem_keys_eventStreamFold (a : String) :
    ∀ (es : List HullEvent) (h : List (String × HullEvent)),
      (a ∈ (eventStreamFold h es).map Prod.fst ↔
        a ∈ h.map Prod.fst ∨ ∃ e ∈ es, e.event_id = a) := by
  intro es
  induction es with
  | nil => intro h; simp [eventStreamFold]
  | cons e rest ih =>
      intro h
      rw [show eventStreamFold h (e :: rest) =
        eventStreamFold (setEvent h e.event_id e) rest from rfl]
      rw [ih, mem_keys_setEvent]
      constructor
      · rintro (⟨ha | rfl⟩ | ⟨e2, he2, hid⟩)
        · exact Or.inl ha
        · exact Or.inr ⟨e, List.mem_cons_self e rest, rfl⟩
        · exact Or.inr ⟨e2, List.mem_cons_of_mem e he2, hid⟩
      · rintro (ha | ⟨e2, he2, hid⟩)
        · exact Or.inl (Or.inl ha)
        · rcases List.mem_cons.mp he2 with rfl | he3
          · exact Or.inl (Or.inr hid.symm)
          · exact Or.inr ⟨e2, he3, hid⟩

theorem eventStreamFold_id_invariant :
    ∀ (es : List HullEvent) (h : List (String × HullEvent)),
      (∀ p ∈ h, p.2.event_id = p.1) →
      ∀ p ∈ eventStreamFold h es, p.2.event_id = p.1 := by
  intro es
  induction es with
  | nil => intro h hinv; exact hinv
  | cons e rest ih =>
      intro h hinv
      exact ih (setEvent h e.event_id e)
        (setEvent_id_invariant e.event_id e rfl h hinv)

theorem find?_values_eq_lookupEvent (k : String) :
    ∀ (h : List (String × HullEvent)),
      (∀ p ∈ h, p.2.event_id = p.1) →
      (h.map Prod.snd).find? (fun e => e.event_id = k) = lookupEvent h k := by
  intro h
  induction h with
  | nil => intro _; rfl
  | cons p rest ih =>
      intro hinv
      have hid : p.2.event_id = p.1 := hinv p (List.mem_cons_self p rest)
      by_cases hk : p.1 = k
      · simp [lookupEvent, List.find?, hid, hk]
      · have hr := ih (fun q hq => hinv q (List.mem_cons_of_mem p hq))
        simpa [lookupEvent, List.find?, hid, hk] using hr

theorem getLast?_cons {α : Type} (x : α) (l : List α) :
    (x :: l).getLast? =
      match l.getLast? with
      | some y => some y
      | none => some x := by
  cases l with
  | nil => simp
  | cons y ys =>
      rw [List.getLast?_cons_cons]
      cases hgl : (y :: ys).getLast? with
      | none => exact absurd (List.getLast?_eq_none_iff.mp hgl) (by simp)
      | some z => simp

theorem lookupEvent_eventStreamFold (k : String) :
    ∀ (es : List HullEvent) (h : List (String × HullEvent)),
      lookupEvent (eventStreamFold h es) k =
        match (es.filter (fun e => e.event_id = k)).getLast? with
        | some e => some e
        | none => lookupEvent h k := by
  intro es
  induction es with
  | nil => intro h; simp [eventStreamFold]
  | cons e rest ih =>
      intro h
      rw [show eventStreamFold h (e :: rest) =
        eventStreamFold (setEvent h e.event_id e) rest from rfl]
      rw [ih]
      by_cases he : e.event_id = k
      · rw [List.filter_cons_of_pos (by simpa using he), getLast?_cons]
        cases hfr : (rest.filter (fun e2 => e2.event_id = k)).getLast? with
        | none =>
            simp only [hfr]
            rw [← he]
            exact lookupEvent_setEvent_self e.event_id e h
        | some e2 => simp [hfr]
      · rw [List.filter_cons_of_neg (by simpa using he)]
        cases hfr : (rest.filter (fun e2 => e2.event_id = k)).getLast? with
        | none =>
            simp only [hfr]
            exact lookupEvent_setEvent_ne e.event_id k e
              (fun hc => he hc.symm) h
        | some e2 => simp [hfr]

/-- An account update message carrying one sub-event. -/
def accMsgWithEvent : AccountUpdateMessage :=
  { accountId := "acc-1", indexedAt := 0,
    events := [{ event_id := "ev-1", payload := "p1" }], snapshot := "s1" }

/-- A more recently indexed account update message for the same account
carrying no sub-events. -/
def accMsgLater : AccountUpdateMessage :=
  { accountId := "acc-1", indexedAt := 1, events := [], snapshot := "s2" }

/-- C3 counterexample: `deduplicateAccountUpdateMessages` keeps the most
recently indexed message of the group unchanged and performs no event
merging, so for two same-account messages where only the older one
carries the sub-event "ev-1", the output's sub-event id set is empty and
does not equal the union over the group. -/
theorem accountDedup_does_not_merge_events :
    accMsgWithEvent.accountId = accMsgLater.accountId ∧
    deduplicateAccountUpdateMessages [accMsgWithEvent, accMsgLater] =
      [accMsgLater] ∧
    accMsgLater.events.map HullEvent.event_id = [] ∧
    "ev-1" ∈ accMsgWithEvent.events.map HullEvent.event_id := by
  exact ⟨rfl, rfl, rfl, by decide⟩

/-- C3 (amended): both deduplicators return exactly one output message per
distinct internal id, that output built from a group member with the
most recent indexed timestamp.  `deduplicateUserUpdateMessages`
additionally replaces the representative's events with the merge of the
group's events keyed by event id (the output's sub-event id set is the
union over the group, later occurrences of a duplicated event id
overwriting earlier ones), while `deduplicateAccountUpdateMessages`
returns the representative unchanged, with only its own sub-events. -/
theorem dedup_one_per_id_latest_rep_merged_events
    (msgs : List UserUpdateMessage) (amsgs : List AccountUpdateMessage) :
    ((deduplicateUserUpdateMessages msgs).map
      UserUpdateMessage.userId).Nodup ∧
    (∀ i, i ∈ (deduplicateUserUpdateMessages msgs).map
        UserUpdateMessage.userId ↔
      i ∈ msgs.map UserUpdateMessage.userId) ∧
    (∀ o ∈ deduplicateUserUpdateMessages msgs, ∃ rep,
      rep ∈ msgs ∧ rep.userId = o.userId ∧
      (∀ m ∈ msgs, m.userId = o.userId → m.indexedAt ≤ rep.indexedAt) ∧
      o = { rep with events :=
        ((hashEvents (msgs.filter (fun m => m.userId = o.userId))).map
          Prod.snd) }) ∧
    (∀ o ∈ deduplicateUserUpdateMessages msgs, ∀ eid,
      eid ∈ o.events.map HullEvent.event_id ↔
        ∃ m ∈ msgs, m.userId = o.userId ∧
          eid ∈ m.events.map HullEvent.event_id) ∧
    (∀ o ∈ deduplicateUserUpdateMessages msgs, ∀ eid,
      o.events.find? (fun e => e.event_id = eid) =
        (((msgs.filter (fun m => m.userId = o.userId)).flatMap
          UserUpdateMessage.events).filter
            (fun e => e.event_id = eid)).getLast?) ∧
    ((deduplicateAccountUpdateMessages amsgs).map
      AccountUpdateMessage.accountId).Nodup ∧
    (∀ i, i ∈ (deduplicateAccountUpdateMessages amsgs).map
        AccountUpdateMessage.accountId ↔
      i ∈ amsgs.map AccountUpdateMessage.accountId) ∧
    (∀ o ∈ deduplicateAccountUpdateMessages amsgs, o ∈ amsgs ∧
      (∀ m ∈ amsgs, m.accountId = o.accountId →
        m.indexedAt ≤ o.indexedAt)) := by
  have hgne : ∀ k, k ∈ firstOccurrences
      (msgs.map UserUpdateMessage.userId) →
      msgs.filter (fun m => m.userId = k) ≠ [] := by
    intro k hk hnil
    rw [mem_firstOccurrences] at hk
    rcases List.mem_map.mp hk with ⟨m, hm, rfl⟩
    have hmem : m ∈ msgs.filter (fun m2 => m2.userId = m.userId) :=
      List.mem_filter.mpr ⟨hm, by simp⟩
    rw [hnil] at hmem
    cases hmem
  have hagne : ∀ k, k ∈ firstOccurrences
      (amsgs.map AccountUpdateMessage.accountId) →
      amsgs.filter (fun m => m.accountId = k) ≠ [] := by
    intro k hk hnil
    rw [mem_firstOccurrences] at hk
    rcases List.mem_map.mp hk with ⟨m, hm, rfl⟩
    have hmem : m ∈ amsgs.filter (fun m2 => m2.accountId = m.accountId) :=
      List.mem_filter.mpr ⟨hm, by simp⟩
    rw [hnil] at hmem
    cases hmem
  have hrepId : ∀ k, k ∈ firstOccurrences
      (msgs.map UserUpdateMessage.userId) →
      (lastBySort UserUpdateMessage.indexedAt
        { userId := "", indexedAt := 0, events := [], snapshot := "" }
        (msgs.filter (fun m => m.userId = k))).userId = k := by
    intro k hk
    have hmem := lastBySort_mem UserUpdateMessage.indexedAt
      { userId := "", indexedAt := 0, events := [], snapshot := "" }
      (msgs.filter (fun m => m.userId = k)) (hgne k hk)
    have := (List.mem_filter.mp hmem).2
    simpa using this
  have harepId : ∀ k, k ∈ firstOccurrences
      (amsgs.map AccountUpdateMessage.accountId) →
      (lastBySort AccountUpdateMessage.indexedAt
        { accountId := "", indexedAt := 0, events := [], snapshot := "" }
        (amsgs.filter (fun m => m.accountId = k))).accountId = k := by
    intro k hk
    have hmem := lastBySort_mem AccountUpdateMessage.indexedAt
      { accountId := "", indexedAt := 0, events := [], snapshot := "" }
      (amsgs.filter (fun m => m.accountId = k)) (hagne k hk)
    have := (List.mem_filter.mp hmem).2
    simpa using this
  have houtIds : (deduplicateUserUpdateMessages msgs).map
      UserUpdateMessage.userId =
      firstOccurrences (msgs.map UserUpdateMessage.userId) := by
    rw [deduplicateUserUpdateMessages, List.map_map]
    have hcg : ∀ k ∈ firstOccurrences (msgs.map UserUpdateMessage.userId),
        (UserUpdateMessage.userId ∘ fun k2 =>
          ({ lastBySort UserUpdateMessage.indexedAt
              { userId := "", indexedAt := 0, events := [], snapshot := "" }
              (msgs.filter (fun m => m.userId = k2)) with
            events := (hashEvents
              (msgs.filter (fun m => m.userId = k2))).map Prod.snd }
            : UserUpdateMessage)) k = id k := by
      intro k hk
      exact hrepId k hk
    rw [List.map_congr_left hcg, List.map_id]
  have haoutIds : (deduplicateAccountUpdateMessages amsgs).map
      AccountUpdateMessage.accountId =
      firstOccurrences (amsgs.map AccountUpdateMessage.accountId) := by
    rw [deduplicateAccountUpdateMessages, List.map_map]
    have hcg : ∀ k ∈ firstOccurrences
        (amsgs.map AccountUpdateMessage.accountId),
        (AccountUpdateMessage.accountId ∘ fun k2 =>
          lastBySort AccountUpdateMessage.indexedAt
            { accountId := "", indexedAt := 0, events := [], snapshot := "" }
            (amsgs.filter (fun m => m.accountId = k2))) k = id k := by
      intro k hk
      exact harepId k hk
    rw [List.map_congr_left hcg, List.map_id]
  refine ⟨?_, ?_, ?_, ?_, ?_, ?_, ?_, ?_⟩
  · rw [houtIds, firstOccurrences]
    exact nodup_groupByKeys _ []
  · intro i
    rw [houtIds, mem_firstOccurrences]
  · intro o ho
    rw [deduplicateUserUpdateMessages] at ho
    rcases List.mem_map.mp ho with ⟨k, hk, rfl⟩
    have hne := hgne k hk
    have hid := hrepId k hk
    refine ⟨lastBySort UserUpdateMessage.indexedAt
      { userId := "", indexedAt := 0, events := [], snapshot := "" }
      (msgs.filter (fun m => m.userId = k)), ?_, ?_, ?_, ?_⟩
    · exact (List.mem_filter.mp (lastBySort_mem _ _ _ hne)).1
    · exact hid.trans hid.symm ▸ rfl
    · intro m hm hmid
      have hmid2 : m.userId = k := by
        rw [hmid]
        exact hid
      have hmg : m ∈ msgs.filter (fun m2 => m2.userId = k) :=
        List.mem_filter.mpr ⟨hm, by simp [hmid2]⟩
      exact lastBySort_max UserUpdateMessage.indexedAt _ _ m hmg
    · show _ = ({ lastBySort UserUpdateMessage.indexedAt
          { userId := "", indexedAt := 0, events := [], snapshot := "" }
          (msgs.filter (fun m => m.userId = _)) with
        events := _ } : UserUpdateMessage)
      rw [hid]
  · intro o ho eid
    rw [deduplicateUserUpdateMessages] at ho
    rcases List.mem_map.mp ho with ⟨k, hk, rfl⟩
    have hid := hrepId k hk
    have hinv := eventStreamFold_id_invariant
      ((msgs.filter (fun m => m.userId = k)).flatMap
        UserUpdateMessage.events) []
      (by intro p hp; cases hp)
    have hvals : (((hashEvents
        (msgs.filter (fun m => m.userId = k))).map Prod.snd).map
          HullEvent.event_id) =
        (eventStreamFold []
          ((msgs.filter (fun m => m.userId = k)).flatMap
            UserUpdateMessage.events)).map Prod.fst := by
      rw [hashEvents_eq_streamFold, List.map_map]
      exact List.map_congr_left (fun p hp => hinv p hp)
    show eid ∈ ((hashEvents
        (msgs.filter (fun m => m.userId = k))).map Prod.snd).map
          HullEvent.event_id ↔ _
    rw [hvals, mem_keys_eventStreamFold]
    simp only [List.map_nil, List.not_mem_nil, false_or]
    constructor
    · rintro ⟨e, he, hide⟩
      rcases List.mem_flatMap.mp he with ⟨m, hmg, hem⟩
      rcases List.mem_filter.mp hmg with ⟨hm, hmid⟩
      refine ⟨m, hm, ?_, List.mem_map.mpr ⟨e, hem, hide⟩⟩
      have : m.userId = k := by simpa using hmid
      rw [this, hid]
    · rintro ⟨m, hm, hmid, hemem⟩
      rcases List.mem_map.mp hemem with ⟨e, hem, hide⟩
      refine ⟨e, List.mem_flatMap.mpr ⟨m, ?_, hem⟩, hide⟩
      refine List.mem_filter.mpr ⟨hm, ?_⟩
      rw [hid] at hmid
      simp [hmid]
  · intro o ho eid
    rw [deduplicateUserUpdateMessages] at ho
    rcases List.mem_map.mp ho with ⟨k, hk, rfl⟩
    have hid := hrepId k hk
    have hinv := eventStreamFold_id_invariant
      ((msgs.filter (fun m => m.userId = k)).flatMap
        UserUpdateMessage.events) []
      (by intro p hp; cases hp)
    show ((hashEvents (msgs.filter (fun m => m.userId = k))).map
        Prod.snd).find? (fun e => e.event_id = eid) = _
    rw [hashEvents_eq_streamFold, find?_values_eq_lookupEvent eid _ hinv,
      lookupEvent_eventStreamFold]
    rw [hid]
    cases hfl : (((msgs.filter (fun m => m.userId = k)).flatMap
        UserUpdateMessage.events).filter
          (fun e => e.event_id = eid)).getLast? with
    | none => rfl
    | some e2 => rfl
  · rw [haoutIds, firstOccurrences]
    exact nodup_groupByKeys _ []
  · intro i
    rw [haoutIds, mem_firstOccurrences]
  · intro o ho
    rw [deduplicateAccountUpdateMessages] at ho
    rcases List.mem_map.mp ho with ⟨k, hk, rfl⟩
    have hne := hagne k hk
    have hid := harepId k hk
    constructor
    · exact (List.mem_filter.mp (lastBySort_mem _ _ _ hne)).1
    · intro m hm hmid
      have hmid2 : m.accountId = k := by
        rw [hmid]
        exact hid
      have hmg : m ∈ amsgs.filter (fun m2 => m2.accountId = k) :=
        List.mem_filter.mpr ⟨hm, by simp [hmid2]⟩
      exact lastBySort_max AccountUpdateMessage.indexedAt _ _ m hmg

/-! ## Round-trip lemmas -/

/-- Reads the attribute stored under a name in an inbound mapping result. -/
def getAttr (h : HullAttributes) (k : String) : Option HullAttribute :=
  (h.find? (fun p => p.1 = k)).map Prod.snd

theorem getAttr_setAttr_self (k : String) (a : HullAttribute) :
    ∀ (h : HullAttributes), getAttr (setAttr h k a) k = some a := by
  intro h
  induction h with
  | nil => simp [setAttr, getAttr, List.find?]
  | cons p rest ih =>
      by_cases hp : p.1 = k
      · simp [setAttr, hp, getAttr, List.find?]
      · simpa [setAttr, hp, getAttr, List.find?] using ih

theorem getAttr_setAttr_ne (k k2 : String) (a : HullAttribute)
    (hne : k2 ≠ k) :
    ∀ (h : HullAttributes), getAttr (setAttr h k a) k2 = getAttr h k2 := by
  intro h
  induction h with
  | nil => simp [setAttr, getAttr, List.find?, Ne.symm hne]
  | cons p rest ih =>
      by_cases hp : p.1 = k
      · subst hp
        simp [setAttr, getAttr, List.find?, Ne.symm hne]
      · by_cases hp2 : p.1 = k2
        · simp [setAttr, hp, getAttr, List.find?, hp2, hne]
        · simpa [setAttr, hp, getAttr, List.find?, hp2] using ih

theorem applyOutboundRule_preserves (hull svc : JRecord)
    (m : CioOutboundMapping) (k : String) (h : ruleWriteTarget m ≠ k) :
    (applyOutboundRule hull svc m).get k = svc.get k := by
  simp only [applyOutboundRule]
  by_cases h1 : (match m.hull_field_name with
      | some f => hull.get f
      | none => JVal.undefined).isNil = true
  · rw [if_pos h1]
  · rw [if_neg h1]
    by_cases h2 : isMultiTarget (ruleSvcAttribName m) = true
    · have htgt : (splitDot (ruleSvcAttribName m)).headD "" ≠ k := by
        rw [ruleWriteTarget] at h
        simp only [if_pos h2] at h
        exact h
      rw [if_pos h2]
      rw [JRecord.get_set_of_ne _ _ _ _ (Ne.symm htgt)]
      by_cases h3 :
          ¬ svc.hasKey ((splitDot (ruleSvcAttribName m)).headD "") = true
      · rw [if_pos h3, JRecord.get_set_of_ne _ _ _ _ (Ne.symm htgt)]
      · rw [if_neg h3]
    · have htgt : ruleSvcAttribName m ≠ k := by
        rw [ruleWriteTarget] at h
        simp only [if_neg h2] at h
        exact h
      rw [if_neg h2]
      rw [JRecord.get_set_of_ne _ _ _ _ (Ne.symm htgt)]

theorem foldl_applyOutboundRule_preserves (hull : JRecord) (k : String) :
    ∀ (rules : List CioOutboundMapping) (svc : JRecord),
      (∀ m ∈ rules, ruleWriteTarget m ≠ k) →
      (rules.foldl (applyOutboundRule hull) svc).get k = svc.get k := by
  intro rules
  induction rules with
  | nil => intro svc _; rfl
  | cons m rest ih =>
      intro svc hall
      rw [List.foldl_cons]
      rw [ih (applyOutboundRule hull svc m)
        (fun m2 hm2 => hall m2 (List.mem_cons_of_mem m hm2))]
      exact applyOutboundRule_preserves hull svc m k
        (hall m (List.mem_cons_self m rest))

/-- C9: the identifying field round-trips.  Inbound,
`mapLeadToHullAccountAttributes` stamps the lead's id as the overwrite
attribute `closeio/id`; outbound, `mapToServiceObject("Lead", ·)` on a
hull account carrying that `closeio/id` value yields a write payload
whose `id` equals the same external id, provided the configured outbound
rules are usable and none of them targets the `id` field. -/
theorem inbound_outbound_id_roundtrip (u : MappingUtil)
    (lead hullAcct : JRecord) (lid : String)
    (hlead : lead.get "id" = .str lid)
    (hh : hullAcct.get "closeio/id" = .str lid)
    (hrules : ¬ (u.attributeMappings.isNone = true ∨
      (u.outboundRules "Lead").length = 0 ∨
      ((u.outboundRules "Lead").length = 1 ∧
        (match (u.outboundRules "Lead").head? with
         | some m => m.keysCount
         | none => 0) = 0)))
    (hnoid : ∀ m ∈ u.outboundRules "Lead", ruleWriteTarget m ≠ "id") :
    getAttr (u.mapLeadToHullAccountAttributes lead) "closeio/id" =
      some { value := .str lid, operation := some "set" } ∧
    ∃ svc, u.mapToServiceObject "Lead" hullAcct = .ok svc ∧
      svc.get "id" = .str lid := by
  constructor
  · have hkey : lead.hasKey "id" = true :=
      lead.hasKey_of_get_ne_undef "id" (by rw [hlead]; intro hc; cases hc)
    rw [MappingUtil.mapLeadToHullAccountAttributes]
    simp only [if_pos hkey]
    rw [getAttr_setAttr_ne _ _ _ (by decide),
      getAttr_setAttr_ne _ _ _ (by decide), getAttr_setAttr_self,
      hlead]
  · have hgd : hullAcct.getD "closeio/id" JVal.null = .str lid := by
      rw [JRecord.getD, hh]
    have hnn : ¬ (hullAcct.getD "closeio/id" JVal.null).isNull = true := by
      rw [hgd]
      intro hc
      cases hc
    rw [MappingUtil.mapToServiceObject]
    simp only [if_neg hrules, if_pos rfl, if_pos hnn]
    refine ⟨_, rfl, ?_⟩
    rw [foldl_applyOutboundRule_preserves hullAcct "id"
      (u.outboundRules "Lead") _ hnoid]
    rw [JRecord.get_set_self, hh]

/-- A MappingUtil with one usable outbound lead rule mapping the hull
domain to the external url field. -/
def mappingUtilDomain : MappingUtil :=
  { attributeMappings := some
      { lead_attributes_outbound :=
          [{ hull_field_name := some "domain",
             closeio_field_name := some "url" }],
        lead_attributes_inbound := ["url"],
        contact_attributes_outbound := [],
        contact_attributes_inbound := [] },
    leadCreationStatusId := "N/A",
    snakeCase := fun s => s }

/-- C9 witness: a lead with id "lead_77" round-trips through the inbound
attribute mapping and back out through `mapToServiceObject`. -/
theorem inbound_outbound_id_roundtrip_witness :
    getAttr (mappingUtilDomain.mapLeadToHullAccountAttributes
      [("id", JVal.str "lead_77"), ("url", JVal.str "https://acme.example")])
      "closeio/id" =
      some { value := .str "lead_77", operation := some "set" } ∧
    ∃ svc, mappingUtilDomain.mapToServiceObject "Lead"
        [("closeio/id", JVal.str "lead_77"), ("name", JVal.str "Acme"),
         ("domain", JVal.str "acme.example")] = .ok svc ∧
      svc.get "id" = .str "lead_77" :=
  inbound_outbound_id_roundtrip mappingUtilDomain
    [("id", JVal.str "lead_77"), ("url", JVal.str "https://acme.example")]
    [("closeio/id", JVal.str "lead_77"), ("name", JVal.str "Acme"),
     ("domain", JVal.str "acme.example")]
    "lead_77" rfl rfl (by decide) (by decide)
